import Mathlib

/-
Verification of the hraftd store package (a Raft-replicated key-value store).

The embedding models the store's state machine at the level the source works
with: the in-memory Go map `m map[string]string` is represented canonically as
a key-sorted, duplicate-free association list (a Go map is unordered and
duplicate-free, so the sorted list is its canonical representation; the Go
standard library JSON encoder likewise emits map keys in sorted order).
JSON texts are modelled by an abstract syntax tree; a byte payload is either
empty, a well-formed JSON text, or malformed.  The Raft consensus engine
(hashicorp/raft, an external dependency) is abstracted by the node's observable
role and by the outcome of the commit future returned by its Apply method.

The source file contains two revisions of store.go (revision 1, the early
one, and revision 2, the later one separated by a document marker); both are
modelled where the claims cite both.
-/

/-- Abstract syntax of a JSON value, the wire form used by the store for log
payloads, snapshots and the peers file. -/
inductive Json where
  | null : Json
  | bool (b : Bool) : Json
  | num (n : Int) : Json
  | str (s : String) : Json
  | arr (xs : List Json) : Json
  | obj (fields : List (String × Json)) : Json

/-- Model of a byte payload: empty, a well-formed JSON text (abstracted to the
value it parses to), or a non-empty text that is not valid JSON. -/
inductive Bytes where
  | empty : Bytes
  | json (j : Json) : Bytes
  | malformed : Bytes

/-- The store's key-value map, the Go field `m map[string]string`, in canonical
key-sorted duplicate-free association-list form. -/
abbrev KVMap := List (String × String)

/-- Go map indexing with presence: `v, ok := m[k]`. -/
def lookup : KVMap → String → Option String
  | [], _ => none
  | p :: rest, k => if p.1 = k then some p.2 else lookup rest k

/-- Go map indexing `m[k]`: the value, or the zero string when absent. -/
def mapGet (m : KVMap) (k : String) : String := (lookup m k).getD ""

/-- Go map assignment `m[k] = v`, keeping the canonical sorted form. -/
def mapSet : KVMap → String → String → KVMap
  | [], k, v => [(k, v)]
  | p :: rest, k, v =>
    if k < p.1 then (k, v) :: p :: rest
    else if k = p.1 then (k, v) :: rest
    else p :: mapSet rest k v

/-- Go `delete(m, k)`: removes the key, a no-op when absent. -/
def mapDelete : KVMap → String → KVMap
  | [], _ => []
  | p :: rest, k => if p.1 = k then mapDelete rest k else p :: mapDelete rest k

/-- The canonical-form invariant: keys strictly increasing. Every map reachable
from the empty map through mapSet and mapDelete satisfies it. -/
def SortedKeys (m : KVMap) : Prop := List.Pairwise (fun a b => a.1 < b.1) m

/-- Clone of the map (fsm.Snapshot iterates the Go map and copies every entry
into a fresh map). -/
def cloneMap (m : KVMap) : KVMap := List.foldl (fun o p => mapSet o p.1 p.2) [] m

/-- The command struct of store.go, with its three string fields Op, Key,
Value, each tagged omitempty. -/
structure command where
  Op : String
  Key : String
  Value : String
deriving DecidableEq

/-- Go json.Marshal of a command: an object with the fields in declaration
order, empty fields omitted (omitempty). Marshalling of a struct of plain
strings cannot fail. -/
def marshalCommand (c : command) : Bytes :=
  Bytes.json (Json.obj
    ((if c.Op = "" then [] else [("op", Json.str c.Op)]) ++
     (if c.Key = "" then [] else [("key", Json.str c.Key)]) ++
     (if c.Value = "" then [] else [("value", Json.str c.Value)])))

/-- ASCII lower-casing of one character, the fold Go json.Unmarshal applies
when matching object keys against struct field names. -/
def foldChar (c : Char) : Char :=
  if 'A' ≤ c ∧ c ≤ 'Z' then Char.ofNat (c.toNat + 32) else c

/-- Case fold of an object key for struct-field matching: Go json.Unmarshal
prefers an exact match but otherwise accepts a case-insensitive one, and the
three tags op, key, value are lower case and pairwise distinct under folding,
so a key matches a field exactly when its fold equals the tag. -/
def foldName (s : String) : String := String.mk (s.data.map foldChar)

/-- One field of a JSON object decoded into a command struct, per Go
json.Unmarshal: a key matching the tag op, key or value, case-insensitively,
sets that field (a JSON null leaves the field unchanged, a non-string value is
a type error); a key that matches no struct field is ignored. -/
def setField (c : command) (name : String) (j : Json) : Except String command :=
  if foldName name = "op" then
    match j with
    | Json.str s => Except.ok { c with Op := s }
    | Json.null => Except.ok c
    | _ => Except.error "cannot unmarshal field op"
  else if foldName name = "key" then
    match j with
    | Json.str s => Except.ok { c with Key := s }
    | Json.null => Except.ok c
    | _ => Except.error "cannot unmarshal field key"
  else if foldName name = "value" then
    match j with
    | Json.str s => Except.ok { c with Value := s }
    | Json.null => Except.ok c
    | _ => Except.error "cannot unmarshal field value"
  else Except.ok c

/-- Decode of the fields of a JSON object into a command, left to right; later
duplicates overwrite earlier ones, as in Go. -/
def applyFields (c : command) : List (String × Json) → Except String command
  | [] => Except.ok c
  | (name, j) :: rest =>
    match setField c name j with
    | Except.ok c2 => applyFields c2 rest
    | Except.error e => Except.error e

/-- Go json.Unmarshal of a JSON value into a command struct: an object is
decoded field by field starting from the zero struct, null is a no-op leaving
the zero struct, and any other value is a type error. -/
def unmarshalCommandJson : Json → Except String command
  | Json.obj fs => applyFields { Op := "", Key := "", Value := "" } fs
  | Json.null => Except.ok { Op := "", Key := "", Value := "" }
  | _ => Except.error "cannot unmarshal into command"

/-- Go json.Unmarshal of raw bytes into a command, as done at the top of
fsm.Apply: empty or malformed bytes are a decode error. -/
def unmarshalCommand : Bytes → Except String command
  | Bytes.json j => unmarshalCommandJson j
  | Bytes.empty => Except.error "unexpected end of JSON input"
  | Bytes.malformed => Except.error "invalid character"

/-- Decode of JSON object fields into a Go map[string]string: every value must
be a string (a null value stores the zero string), later duplicates
overwrite. -/
def buildStringMap : KVMap → List (String × Json) → Except String KVMap
  | o, [] => Except.ok o
  | o, (k, Json.str v) :: rest => buildStringMap (mapSet o k v) rest
  | o, (k, Json.null) :: rest => buildStringMap (mapSet o k "") rest
  | _, _ => Except.error "cannot unmarshal map value"

/-- Go json decode of a JSON value into map[string]string, as done by
fsm.Restore: an object of string values, or null which leaves the freshly made
empty map. -/
def unmarshalStringMap : Json → Except String KVMap
  | Json.obj fs => buildStringMap [] fs
  | Json.null => Except.ok []
  | _ => Except.error "cannot unmarshal into map"

/-- Go json decode of a JSON value into a string slice, as done by
readPeersJSON: an array of strings (a null element decodes to the zero
string), or null which yields the nil slice. -/
def unmarshalStringArray : Json → Except String (List String)
  | Json.null => Except.ok []
  | Json.arr xs =>
    xs.mapM (fun j =>
      match j with
      | Json.str s => Except.ok s
      | Json.null => Except.ok ""
      | _ => Except.error "cannot unmarshal array element")
  | _ => Except.error "cannot unmarshal into string slice"

/-- Outcome of fsm.Apply on one log entry: a normal return carrying the Go
return value (none models the nil success sentinel) and the new map, or a
process halt via panic with the panic message. -/
inductive ApplyOutcome where
  | ok (ret : Option String) (m : KVMap) : ApplyOutcome
  | panicked (msg : String) : ApplyOutcome

/-- fsm.applySet: stores the value under the key and returns nil. -/
def fsm.applySet (m : KVMap) (key value : String) : ApplyOutcome :=
  ApplyOutcome.ok none (mapSet m key value)

/-- fsm.applyDelete: removes the key and returns nil. -/
def fsm.applyDelete (m : KVMap) (key : String) : ApplyOutcome :=
  ApplyOutcome.ok none (mapDelete m key)

/-- fsm.Apply: decodes the log entry payload, halting the process on a decode
error, then dispatches on the op, halting the process on an unrecognized
op. -/
def fsm.Apply (m : KVMap) (data : Bytes) : ApplyOutcome :=
  match unmarshalCommand data with
  | Except.error e => ApplyOutcome.panicked ("failed to unmarshal command: " ++ e)
  | Except.ok c =>
    if c.Op = "set" then fsm.applySet m c.Key c.Value
    else if c.Op = "delete" then fsm.applyDelete m c.Key
    else ApplyOutcome.panicked ("unrecognized command op: " ++ c.Op)

/-- The map state after a replica applies a sequence of committed log entries
in log order; a panic halts the replica. -/
def applyEntries (m : KVMap) : List Bytes → KVMap
  | [] => m
  | b :: rest =>
    match fsm.Apply m b with
    | ApplyOutcome.ok _ m2 => applyEntries m2 rest
    | ApplyOutcome.panicked _ => m

/-- The fsmSnapshot struct: the cloned map held between Snapshot and
Persist. -/
structure fsmSnapshot where
  store : KVMap

/-- fsm.Snapshot: clones the map under the mutex and wraps it. -/
def fsm.Snapshot (m : KVMap) : fsmSnapshot := fsmSnapshot.mk (cloneMap m)

/-- fsmSnapshot.Persist: json.Marshal of the cloned map (a JSON object, keys
in sorted order as the Go encoder emits them), written to the sink. -/
def fsmSnapshot.Persist (s : fsmSnapshot) : Bytes :=
  Bytes.json (Json.obj (s.store.map (fun p => (p.1, Json.str p.2))))

/-- fsm.Restore: decodes a full JSON object from the reader into a fresh map
and replaces the store's map with it; the prior map is discarded. -/
def fsm.Restore (prior : KVMap) (b : Bytes) : Except String KVMap :=
  match b with
  | Bytes.json j => unmarshalStringMap j
  | Bytes.empty => Except.error "EOF"
  | Bytes.malformed => Except.error "invalid character"

/-- The observable Raft role of a node. -/
inductive RaftState where
  | Follower : RaftState
  | Candidate : RaftState
  | Leader : RaftState
deriving DecidableEq

/-- Outcome of the commit future returned by raft.Apply: the entry committed,
the raftTimeout deadline elapsed, or the library reported another error. -/
inductive FutureResult where
  | committed : FutureResult
  | timeout : FutureResult
  | failed (msg : String) : FutureResult
deriving DecidableEq

/-- The Error() method of the commit future: nil exactly on commit. -/
def FutureResult.error : FutureResult → Option String
  | FutureResult.committed => none
  | FutureResult.timeout => some "timed out enqueuing operation"
  | FutureResult.failed msg => some msg

/-- raftTimeout, the commit deadline handed to raft.Apply, in seconds
(10 * time.Second in the source). -/
def raftTimeout : Nat := 10

/-- Observable effect of one Store write call: the returned error (none for
nil) and the payloads submitted to raft.Apply, each with its timeout. -/
structure WriteCall where
  ret : Option String
  submitted : List (Bytes × Nat)

/-- Observable effect of one Store read call: the returned value, the returned
error, and the payloads submitted to raft.Apply (always none). -/
structure ReadCall where
  value : String
  err : Option String
  submitted : List (Bytes × Nat)

/-- Store.Get: answers from the local map under the mutex, never consulting
the log; the error result is the literal nil. -/
def Store.Get (m : KVMap) (key : String) : ReadCall :=
  ReadCall.mk (mapGet m key) none []

/-- Store.Set, revision 2: rejects non-leaders, otherwise marshals the set
command, submits it with raftTimeout, and returns the commit future's
Error(). -/
def Store.Set (rs : RaftState) (fut : FutureResult) (key value : String) : WriteCall :=
  if rs ≠ RaftState.Leader then WriteCall.mk (some "not leader") []
  else
    let c : command := command.mk "set" key value
    WriteCall.mk fut.error [(marshalCommand c, raftTimeout)]

/-- Store.Delete, revision 2: rejects non-leaders, otherwise marshals the
delete command (Value left at its zero value), submits it with raftTimeout,
and returns the commit future's Error(). -/
def Store.Delete (rs : RaftState) (fut : FutureResult) (key : String) : WriteCall :=
  if rs ≠ RaftState.Leader then WriteCall.mk (some "not leader") []
  else
    let c : command := command.mk "delete" key ""
    WriteCall.mk fut.error [(marshalCommand c, raftTimeout)]

/-- Store.Set, revision 1: rejects non-leaders and submits like revision 2,
but then returns nil without consulting the future: the type assertion
f.(error) on the library's ApplyFuture never holds (ApplyFuture does not
implement the error interface), and Error() is never called. -/
def Store.SetRev1 (rs : RaftState) (fut : FutureResult) (key value : String) : WriteCall :=
  if rs ≠ RaftState.Leader then WriteCall.mk (some "not leader") []
  else
    let c : command := command.mk "set" key value
    WriteCall.mk none [(marshalCommand c, raftTimeout)]

/-- Store.Delete, revision 1: the body is the single statement return nil; no
leadership check, no command, no submission. -/
def Store.DeleteRev1 (rs : RaftState) (key : String) : WriteCall :=
  WriteCall.mk none []

/-- The two raft.Config fields store.Open touches; raft.DefaultConfig of the
library sets EnableSingleNode false and DisableBootstrapAfterElect true. -/
structure RaftConfig where
  enableSingleNode : Bool
  disableBootstrapAfterElect : Bool
deriving DecidableEq

/-- raft.DefaultConfig, restricted to the two fields Open touches. -/
def raftDefaultConfig : RaftConfig := RaftConfig.mk false true

/-- Result of the ioutil.ReadFile call on peers.json: the bytes, a
does-not-exist error, or any other read error. -/
inductive ReadResult where
  | ok (b : Bytes) : ReadResult
  | notExist : ReadResult
  | otherError : ReadResult

/-- readPeersJSON: a read error other than does-not-exist is returned; a
missing file leaves nil bytes, and zero-length bytes yield the nil peer list
with nil error; otherwise the bytes are JSON-decoded into a string slice. -/
def readPeersJSON : ReadResult → Except String (List String)
  | ReadResult.otherError => Except.error "read error"
  | ReadResult.notExist => Except.ok []
  | ReadResult.ok Bytes.empty => Except.ok []
  | ReadResult.ok Bytes.malformed => Except.error "invalid character"
  | ReadResult.ok (Bytes.json j) => unmarshalStringArray j

/-- Store.Open, revision 2, restricted to the bootstrap decision: reads the
persisted peer list (propagating its error) and enables single-node mode
exactly when enableSingle is set and at most one peer is already recorded. -/
def Store.OpenConfig (enableSingle : Bool) (r : ReadResult) : Except String RaftConfig :=
  match readPeersJSON r with
  | Except.error e => Except.error e
  | Except.ok peers =>
    if enableSingle && decide (peers.length ≤ 1) then
      Except.ok (RaftConfig.mk true false)
    else Except.ok raftDefaultConfig

/-- Store.Open, revision 1, restricted to the bootstrap decision: enables
single-node mode whenever enableSingle is set; the persisted peer list is
never read for this decision. -/
def Store.OpenRev1Config (enableSingle : Bool) (r : ReadResult) : RaftConfig :=
  if enableSingle then RaftConfig.mk true false else raftDefaultConfig

/-- The most recent write for a key in a command sequence: the value of the
last set for the key, the empty string after a delete of the key or when the
key was never written. -/
def lastWrite (k : String) (cs : List command) : String :=
  cs.foldl (fun acc c => if c.Key = k then (if c.Op = "set" then c.Value else "") else acc) ""


/-- Looking up the key at the head of the list. -/
theorem lookup_cons_self (k v : String) (t : KVMap) : lookup ((k, v) :: t) k = some v := by
  simp [lookup]

/-- A key below every key of the list is absent. -/
theorem lookup_eq_none_of_keys_gt (m : KVMap) (k : String) (h : ∀ p ∈ m, k < p.1) :
    lookup m k = none := by
  induction m with
  | nil => rfl
  | cons p t ih =>
    have hne : p.1 ≠ k := ne_of_gt (h p (List.mem_cons_self p t))
    simp only [lookup, if_neg hne]
    exact ih (fun q hq => h q (List.mem_cons_of_mem p hq))

/-- Unfolding of the canonical-form invariant at a cons cell. -/
theorem sortedKeys_cons {p : String × String} {t : KVMap} (h : SortedKeys (p :: t)) :
    (∀ q ∈ t, p.1 < q.1) ∧ SortedKeys t := by
  rw [SortedKeys, List.pairwise_cons] at h
  exact h

/-- Lookup after a map assignment: the assigned key reads the new value, every
other key is untouched. -/
theorem lookup_mapSet (m : KVMap) (k v k2 : String) :
    lookup (mapSet m k v) k2 = if k = k2 then some v else lookup m k2 := by
  induction m with
  | nil => simp [mapSet, lookup]
  | cons p t ih =>
    obtain ⟨pk, pv⟩ := p
    by_cases h1 : k < pk
    · simp [mapSet, h1, lookup]
    · by_cases h2 : k = pk
      · subst h2
        by_cases h3 : k = k2 <;> simp [mapSet, h1, h3, lookup]
      · by_cases h4 : pk = k2
        · have h5 : ¬ k = k2 := fun hh => h2 (hh.trans h4.symm)
          rw [show mapSet ((pk, pv) :: t) k v = (pk, pv) :: mapSet t k v from by
            simp only [mapSet, if_neg h1, if_neg h2]]
          simp [lookup, h4, h5]
        · simp [mapSet, h1, h2, h4, lookup, ih]

/-- Lookup after a map deletion: the deleted key is absent, every other key is
untouched. -/
theorem lookup_mapDelete (m : KVMap) (k k2 : String) :
    lookup (mapDelete m k) k2 = if k = k2 then none else lookup m k2 := by
  induction m with
  | nil => simp [mapDelete, lookup]
  | cons p t ih =>
    obtain ⟨pk, pv⟩ := p
    by_cases h1 : pk = k
    · subst h1
      by_cases h2 : pk = k2
      · subst h2
        simp [mapDelete, lookup, ih]
      · simp [mapDelete, lookup, ih, h2, fun hh : pk = k2 => h2 hh]
    · by_cases h2 : pk = k2
      · subst h2
        have hk : ¬ k = pk := fun hh => h1 hh.symm
        simp [mapDelete, h1, lookup, hk]
      · simp [mapDelete, h1, lookup, h2, ih]

/-- Extensionality for canonical maps: two key-sorted maps with the same
lookup function are equal. -/
theorem map_ext (m1 : KVMap) : ∀ (m2 : KVMap), SortedKeys m1 → SortedKeys m2 →
    (∀ k, lookup m1 k = lookup m2 k) → m1 = m2 := by
  induction m1 with
  | nil =>
    intro m2 _ _ h
    cases m2 with
    | nil => rfl
    | cons q t2 =>
      exfalso
      obtain ⟨k2, v2⟩ := q
      have hq := h k2
      rw [lookup_cons_self] at hq
      simp [lookup] at hq
  | cons p t1 ih =>
    intro m2 h1 h2 h
    obtain ⟨k1, v1⟩ := p
    cases m2 with
    | nil =>
      exfalso
      have hk := h k1
      rw [lookup_cons_self] at hk
      simp [lookup] at hk
    | cons q t2 =>
      obtain ⟨k2, v2⟩ := q
      obtain ⟨hgt1, ht1⟩ := sortedKeys_cons h1
      obtain ⟨hgt2, ht2⟩ := sortedKeys_cons h2
      rcases lt_trichotomy k1 k2 with hlt | heq | hgt
      · exfalso
        have hk := h k1
        rw [lookup_cons_self] at hk
        have hn : lookup ((k2, v2) :: t2) k1 = none := by
          refine lookup_eq_none_of_keys_gt _ _ ?_
          intro q hq
          rcases List.mem_cons.mp hq with hh | hh
          · rw [hh]; exact hlt
          · exact lt_trans hlt (hgt2 q hh)
        rw [hn] at hk
        exact Option.noConfusion hk
      · subst heq
        have hk := h k1
        rw [lookup_cons_self, lookup_cons_self] at hk
        have hv : v1 = v2 := Option.some.inj hk
        subst hv
        have htl : ∀ k, lookup t1 k = lookup t2 k := by
          intro k
          by_cases hkk : k1 = k
          · subst hkk
            rw [lookup_eq_none_of_keys_gt t1 k1 hgt1,
              lookup_eq_none_of_keys_gt t2 k1 hgt2]
          · have hx := h k
            simp only [lookup, if_neg hkk] at hx
            exact hx
        rw [ih t2 ht1 ht2 htl]
      · exfalso
        have hk := h k2
        rw [lookup_cons_self] at hk
        have hn : lookup ((k1, v1) :: t1) k2 = none := by
          refine lookup_eq_none_of_keys_gt _ _ ?_
          intro q hq
          rcases List.mem_cons.mp hq with hh | hh
          · rw [hh]; exact hgt
          · exact lt_trans hgt (hgt1 q hh)
        rw [hn] at hk
        exact Option.noConfusion hk

/-- Inserting a key greater than every present key appends at the end. -/
theorem mapSet_append_of_keys_lt (o : KVMap) (k v : String) (h : ∀ p ∈ o, p.1 < k) :
    mapSet o k v = o ++ [(k, v)] := by
  induction o with
  | nil => rfl
  | cons p t ih =>
    have hpk : p.1 < k := h p (List.mem_cons_self p t)
    have h1 : ¬ k < p.1 := lt_asymm hpk
    have h2 : ¬ k = p.1 := ne_of_gt hpk
    obtain ⟨pk, pv⟩ := p
    simp only [mapSet, if_neg h1, if_neg h2, List.cons_append]
    rw [ih (fun q hq => h q (List.mem_cons_of_mem (pk, pv) hq))]

/-- Re-inserting a sorted entry list into an accumulator below it reproduces
the concatenation. -/
theorem foldl_mapSet_of_sorted (m : KVMap) : ∀ (o : KVMap), SortedKeys (o ++ m) →
    List.foldl (fun o p => mapSet o p.1 p.2) o m = o ++ m := by
  induction m with
  | nil => intro o _; simp
  | cons p t ih =>
    intro o h
    obtain ⟨k, v⟩ := p
    have hlt : ∀ q ∈ o, q.1 < k := by
      rw [SortedKeys, List.pairwise_append] at h
      intro q hq
      exact h.2.2 q hq (k, v) (List.mem_cons_self _ _)
    have hassoc : (o ++ [(k, v)]) ++ t = o ++ ((k, v) :: t) := by simp
    simp only [List.foldl_cons]
    rw [mapSet_append_of_keys_lt o k v hlt]
    rw [ih (o ++ [(k, v)]) (by rw [hassoc]; exact h)]
    exact hassoc

/-- Cloning a canonical map reproduces it. -/
theorem cloneMap_of_sorted (m : KVMap) (h : SortedKeys m) : cloneMap m = m := by
  rw [cloneMap, foldl_mapSet_of_sorted m [] (by simpa using h)]
  rfl

/-- Decoding an all-string JSON object builds the map by repeated
insertion. -/
theorem buildStringMap_strs (m : KVMap) : ∀ (o : KVMap),
    buildStringMap o (m.map (fun p => (p.1, Json.str p.2))) =
      Except.ok (List.foldl (fun o p => mapSet o p.1 p.2) o m) := by
  induction m with
  | nil => intro o; rfl
  | cons p t ih =>
    intro o
    obtain ⟨k, v⟩ := p
    simp only [List.map_cons, buildStringMap, List.foldl_cons]
    exact ih (mapSet o k v)

/-- Evaluation of the key fold at the tag op. -/
theorem foldName_op : foldName "op" = "op" := rfl

/-- Evaluation of the key fold at the tag key. -/
theorem foldName_key : foldName "key" = "key" := rfl

/-- Evaluation of the key fold at the tag value. -/
theorem foldName_value : foldName "value" = "value" := rfl

/-- The command codec round-trip: decoding the encoding of any command
reproduces it exactly; fields omitted by omitempty decode back to the zero
string. -/
theorem marshal_roundtrip (c : command) : unmarshalCommand (marshalCommand c) = Except.ok c := by
  obtain ⟨o, k, v⟩ := c
  by_cases ho : o = "" <;> by_cases hk : k = "" <;> by_cases hv : v = "" <;>
    simp [marshalCommand, unmarshalCommand, unmarshalCommandJson, applyFields, setField,
      foldName_op, foldName_key, foldName_value, ho, hk, hv]

/-- Reading a key after a map assignment, at the value level. -/
theorem mapGet_mapSet (m : KVMap) (k v k2 : String) :
    mapGet (mapSet m k v) k2 = if k = k2 then v else mapGet m k2 := by
  rw [mapGet, lookup_mapSet]
  by_cases h : k = k2 <;> simp [h, mapGet]

/-- Reading a key after a map deletion, at the value level. -/
theorem mapGet_mapDelete (m : KVMap) (k k2 : String) :
    mapGet (mapDelete m k) k2 = if k = k2 then "" else mapGet m k2 := by
  rw [mapGet, lookup_mapDelete]
  by_cases h : k = k2 <;> simp [h, mapGet]

/-- Deleting an absent key leaves the map unchanged, entry for entry. -/
theorem mapDelete_of_absent (m : KVMap) (k : String) (h : lookup m k = none) :
    mapDelete m k = m := by
  induction m with
  | nil => rfl
  | cons p t ih =>
    obtain ⟨pk, pv⟩ := p
    by_cases hp : pk = k
    · rw [show lookup ((pk, pv) :: t) k = some pv from by simp [lookup, hp]] at h
      exact Option.noConfusion h
    · rw [show lookup ((pk, pv) :: t) k = lookup t k from by simp [lookup, hp]] at h
      simp only [mapDelete, if_neg hp]
      rw [ih h]

/-- Applying a marshalled set command. -/
theorem apply_marshal_set (m : KVMap) (c : command) (hop : c.Op = "set") :
    fsm.Apply m (marshalCommand c) = ApplyOutcome.ok none (mapSet m c.Key c.Value) := by
  simp [fsm.Apply, marshal_roundtrip, hop, fsm.applySet]

/-- Applying a marshalled delete command. -/
theorem apply_marshal_delete (m : KVMap) (c : command) (hop : c.Op = "delete") :
    fsm.Apply m (marshalCommand c) = ApplyOutcome.ok none (mapDelete m c.Key) := by
  simp [fsm.Apply, marshal_roundtrip, hop, fsm.applyDelete]

/-- The value a key reads after a replica applies a marshalled command
sequence: a left fold of the per-key effect over the sequence. -/
theorem applyEntries_get (cs : List command) : ∀ (m : KVMap) (k : String),
    (∀ c ∈ cs, c.Op = "set" ∨ c.Op = "delete") →
    mapGet (applyEntries m (cs.map marshalCommand)) k =
      List.foldl (fun acc c => if c.Key = k then (if c.Op = "set" then c.Value else "") else acc)
        (mapGet m k) cs := by
  induction cs with
  | nil => intro m k _; rfl
  | cons c rest ih =>
    intro m k h
    have hc := h c (List.mem_cons_self c rest)
    have hrest : ∀ c2 ∈ rest, c2.Op = "set" ∨ c2.Op = "delete" :=
      fun c2 hc2 => h c2 (List.mem_cons_of_mem c hc2)
    rcases hc with hop | hop
    · rw [List.map_cons]
      simp only [applyEntries, apply_marshal_set m c hop]
      rw [ih (mapSet m c.Key c.Value) k hrest, List.foldl_cons]
      congr 1
      rw [mapGet_mapSet, hop]
      simp
    · rw [List.map_cons]
      simp only [applyEntries, apply_marshal_delete m c hop]
      rw [ih (mapDelete m c.Key) k hrest, List.foldl_cons]
      congr 1
      rw [mapGet_mapDelete, hop]
      simp

/-- C1: applying the same finite committed command sequence to two replicas
whose maps hold equal contents leaves their maps equal, and fsm.Apply itself
is a deterministic function of the prior map contents and the payload alone. -/
theorem apply_deterministic (S : List Bytes) (m1 m2 : KVMap) (h1 : SortedKeys m1)
    (h2 : SortedKeys m2) (h : ∀ k, lookup m1 k = lookup m2 k) :
    (∀ b : Bytes, fsm.Apply m1 b = fsm.Apply m2 b) ∧
      applyEntries m1 S = applyEntries m2 S := by
  have he : m1 = m2 := map_ext m1 m2 h1 h2 h
  subst he
  exact ⟨fun _ => rfl, rfl⟩

/-- Witness for C1 at a concrete replica state and log. -/
theorem apply_deterministic_witness :
    (∀ b : Bytes, fsm.Apply [("k", "v")] b = fsm.Apply [("k", "v")] b) ∧
      applyEntries [("k", "v")] [marshalCommand (command.mk "set" "a" "1")] =
        applyEntries [("k", "v")] [marshalCommand (command.mk "set" "a" "1")] :=
  apply_deterministic [marshalCommand (command.mk "set" "a" "1")] [("k", "v")] [("k", "v")]
    (by simp [SortedKeys]) (by simp [SortedKeys]) (fun _ => rfl)

/-- C2: after a sequence of set and delete commands is applied from the empty
initial map, every key reads the value of the most recent command for it (the
value of the last set, the empty string after a delete or when never written,
other keys not interfering), and deleting an absent key is a no-op. -/
theorem kv_last_writer :
    (∀ (cs : List command) (k : String), (∀ c ∈ cs, c.Op = "set" ∨ c.Op = "delete") →
      mapGet (applyEntries [] (cs.map marshalCommand)) k = lastWrite k cs) ∧
    (∀ (m : KVMap) (k : String), lookup m k = none → mapDelete m k = m) := by
  constructor
  · intro cs k h
    rw [lastWrite]
    simpa [mapGet, lookup] using applyEntries_get cs [] k h
  · exact mapDelete_of_absent

/-- Witness for C2 at a concrete command sequence. -/
theorem kv_last_writer_witness :
    mapGet (applyEntries [] ([command.mk "set" "user1" "batman",
        command.mk "delete" "user1" ""].map marshalCommand)) "user1" =
      lastWrite "user1" [command.mk "set" "user1" "batman", command.mk "delete" "user1" ""] ∧
      mapDelete [("a", "1")] "b" = [("a", "1")] :=
  ⟨kv_last_writer.1 [command.mk "set" "user1" "batman", command.mk "delete" "user1" ""] "user1"
      (by decide),
    kv_last_writer.2 [("a", "1")] "b" (by decide)⟩

/-- C6: snapshotting a map, persisting the snapshot, and restoring from the
persisted encoding yields exactly the snapshotted map, whatever map the
restoring node held before: restore fully replaces the prior map, so keys
absent from the snapshot are absent afterwards. -/
theorem snapshot_restore_roundtrip (m prior : KVMap) (h : SortedKeys m) :
    fsm.Restore prior (fsmSnapshot.Persist (fsm.Snapshot m)) = Except.ok m := by
  have h1 : fsm.Restore prior (fsmSnapshot.Persist (fsm.Snapshot m)) =
      buildStringMap [] ((cloneMap m).map (fun p => (p.1, Json.str p.2))) := rfl
  rw [h1, cloneMap_of_sorted m h, buildStringMap_strs m [],
    foldl_mapSet_of_sorted m [] (by simpa using h)]
  rfl

/-- Witness for C6 at a concrete map and a different prior map. -/
theorem snapshot_restore_roundtrip_witness :
    fsm.Restore [("old", "x")] (fsmSnapshot.Persist (fsm.Snapshot [("a", "1"), ("b", "2")])) =
      Except.ok [("a", "1"), ("b", "2")] :=
  snapshot_restore_roundtrip [("a", "1"), ("b", "2")] [("old", "x")] (by
    simp only [SortedKeys, List.pairwise_cons, List.mem_singleton, List.not_mem_nil,
      List.mem_cons, or_false]
    refine ⟨?_, ?_, List.Pairwise.nil⟩
    · intro q hq
      rw [hq, String.lt_iff_toList_lt]
      decide
    · intro q hq
      exact hq.elim)

/-- C9: Store.Get returns the key's current value, the empty string when the
key is absent, always with a nil error, and submits nothing to the log. -/
theorem get_local (m : KVMap) (k : String) :
    (Store.Get m k).err = none ∧ (Store.Get m k).submitted = [] ∧
      (∀ v, lookup m k = some v → (Store.Get m k).value = v) ∧
      (lookup m k = none → (Store.Get m k).value = "") := by
  refine ⟨rfl, rfl, ?_, ?_⟩
  · intro v hv
    simp [Store.Get, mapGet, hv]
  · intro hv
    simp [Store.Get, mapGet, hv]

/-- Witness for C9 at a present and an absent key. -/
theorem get_local_witness :
    (Store.Get [("user1", "batman")] "user1").err = none ∧
      (Store.Get [("user1", "batman")] "user1").submitted = [] ∧
      (Store.Get [("user1", "batman")] "user1").value = "batman" ∧
      (Store.Get [("user1", "batman")] "user2").value = "" :=
  ⟨(get_local [("user1", "batman")] "user1").1,
    (get_local [("user1", "batman")] "user1").2.1,
    (get_local [("user1", "batman")] "user1").2.2.1 "batman" rfl,
    (get_local [("user1", "batman")] "user2").2.2.2 rfl⟩

/-- C3 counterexample: revision 1's Delete, called on a follower, returns nil
rather than the NotLeader error the claim states for every write attempt. -/
theorem notleader_delete_rev1_cex :
    (Store.DeleteRev1 RaftState.Follower "user1").ret = none ∧
      (Store.DeleteRev1 RaftState.Follower "user1").ret ≠ some "not leader" ∧
      (Store.DeleteRev1 RaftState.Follower "user1").submitted = [] :=
  ⟨rfl, by simp [Store.DeleteRev1], rfl⟩

/-- C3 as amended: on a node that is not the leader, revision 2's Set and
Delete and revision 1's Set return the NotLeader error without submitting any
entry; revision 1's Delete also submits nothing but returns nil instead of
NotLeader. No rejected call touches the map: none of these calls reaches the
apply path. -/
theorem notleader_rejects (rs : RaftState) (fut : FutureResult) (k v : String)
    (h : rs ≠ RaftState.Leader) :
    Store.Set rs fut k v = WriteCall.mk (some "not leader") [] ∧
      Store.Delete rs fut k = WriteCall.mk (some "not leader") [] ∧
      Store.SetRev1 rs fut k v = WriteCall.mk (some "not leader") [] ∧
      Store.DeleteRev1 rs k = WriteCall.mk none [] := by
  refine ⟨?_, ?_, ?_, rfl⟩
  · simp [Store.Set, h]
  · simp [Store.Delete, h]
  · simp [Store.SetRev1, h]

/-- Witness for the amended C3 on a concrete follower. -/
theorem notleader_rejects_witness :
    Store.Set RaftState.Follower FutureResult.committed "k" "v" =
        WriteCall.mk (some "not leader") [] ∧
      Store.Delete RaftState.Follower FutureResult.committed "k" =
        WriteCall.mk (some "not leader") [] ∧
      Store.SetRev1 RaftState.Follower FutureResult.committed "k" "v" =
        WriteCall.mk (some "not leader") [] ∧
      Store.DeleteRev1 RaftState.Follower "k" = WriteCall.mk none [] :=
  notleader_rejects RaftState.Follower FutureResult.committed "k" "v" (by decide)

/-- C4 counterexample: revision 1's Open enables single-node mode on the flag
alone, here even though the persisted peer list it never consults holds two
entries, where the claimed predicate requires at most one. -/
theorem single_node_rev1_cex :
    (Store.OpenRev1Config true (ReadResult.ok (Bytes.json (Json.arr [Json.str "node1",
        Json.str "node2"])))).enableSingleNode = true ∧
      readPeersJSON (ReadResult.ok (Bytes.json (Json.arr [Json.str "node1", Json.str "node2"]))) =
        Except.ok ["node1", "node2"] ∧
      ¬ ((["node1", "node2"] : List String).length ≤ 1) :=
  ⟨rfl, rfl, by decide⟩

/-- C4 as amended: revision 2's Open enables single-node mode if and only if
enableSingle is set and the persisted peer list has at most one entry, as
claimed; revision 1's Open instead enables it whenever enableSingle is set,
ignoring the persisted peer list. -/
theorem single_node_bootstrap (es : Bool) (r : ReadResult) (peers : List String)
    (h : readPeersJSON r = Except.ok peers) :
    (∃ cfg, Store.OpenConfig es r = Except.ok cfg ∧
      (cfg.enableSingleNode = true ↔ (es = true ∧ peers.length ≤ 1))) ∧
      (Store.OpenRev1Config es r).enableSingleNode = es := by
  constructor
  · by_cases hc : (es && decide (peers.length ≤ 1)) = true
    · refine ⟨RaftConfig.mk true false, ?_, ?_⟩
      · simp [Store.OpenConfig, h, hc]
      · have hc2 : es = true ∧ peers.length ≤ 1 := by
          simpa [Bool.and_eq_true, decide_eq_true_eq] using hc
        simp [hc2]
    · refine ⟨raftDefaultConfig, ?_, ?_⟩
      · simp [Store.OpenConfig, h, hc]
      · have hc2 : ¬ (es = true ∧ peers.length ≤ 1) := by
          simpa [Bool.and_eq_true, decide_eq_true_eq] using hc
        rw [show raftDefaultConfig.enableSingleNode = false from rfl]
        exact iff_of_false (by simp) hc2
  · rw [Store.OpenRev1Config]
    cases es <;> rfl

/-- Witness for the amended C4 on a concrete two-entry peer list. -/
theorem single_node_bootstrap_witness :
    (∃ cfg, Store.OpenConfig true (ReadResult.ok (Bytes.json (Json.arr [Json.str "node1",
        Json.str "node2"]))) = Except.ok cfg ∧
      (cfg.enableSingleNode = true ↔ (true = true ∧ (["node1", "node2"] : List String).length ≤ 1))) ∧
      (Store.OpenRev1Config true (ReadResult.ok (Bytes.json (Json.arr [Json.str "node1",
        Json.str "node2"])))).enableSingleNode = true :=
  single_node_bootstrap true (ReadResult.ok (Bytes.json (Json.arr [Json.str "node1",
    Json.str "node2"]))) ["node1", "node2"] rfl

/-- C8 counterexample: revision 1's Set on the leader returns nil even when
the commit future resolved with the timeout error, where the claim requires
the future's underlying error to be returned. -/
theorem leader_set_rev1_cex :
    (Store.SetRev1 RaftState.Leader FutureResult.timeout "k" "v").ret = none ∧
      FutureResult.timeout.error = some "timed out enqueuing operation" ∧
      (none : Option String) ≠ some "timed out enqueuing operation" :=
  ⟨rfl, rfl, by simp⟩

/-- C8 as amended: on the leader, revision 2's Set and Delete encode the
command, submit it to the consensus engine with the raftTimeout deadline of
10 seconds, and return the commit future's error, which is nil exactly when
the command committed; revision 1's Set submits the same entry but returns
nil without consulting the future. -/
theorem leader_write_blocks (rs : RaftState) (fut : FutureResult) (k v : String)
    (h : rs = RaftState.Leader) :
    Store.Set rs fut k v =
        WriteCall.mk fut.error [(marshalCommand (command.mk "set" k v), raftTimeout)] ∧
      Store.Delete rs fut k =
        WriteCall.mk fut.error [(marshalCommand (command.mk "delete" k ""), raftTimeout)] ∧
      (fut.error = none ↔ fut = FutureResult.committed) ∧
      FutureResult.timeout.error = some "timed out enqueuing operation" ∧
      raftTimeout = 10 ∧
      Store.SetRev1 rs fut k v =
        WriteCall.mk none [(marshalCommand (command.mk "set" k v), raftTimeout)] := by
  subst h
  refine ⟨?_, ?_, ?_, rfl, rfl, ?_⟩
  · simp [Store.Set]
  · simp [Store.Delete]
  · cases fut <;> simp [FutureResult.error]
  · simp [Store.SetRev1]

/-- Witness for the amended C8 on the leader with a failed future. -/
theorem leader_write_blocks_witness :
    Store.Set RaftState.Leader (FutureResult.failed "boom") "k" "v" =
        WriteCall.mk (FutureResult.failed "boom").error
          [(marshalCommand (command.mk "set" "k" "v"), raftTimeout)] ∧
      Store.Delete RaftState.Leader (FutureResult.failed "boom") "k" =
        WriteCall.mk (FutureResult.failed "boom").error
          [(marshalCommand (command.mk "delete" "k" ""), raftTimeout)] ∧
      ((FutureResult.failed "boom").error = none ↔
        FutureResult.failed "boom" = FutureResult.committed) ∧
      FutureResult.timeout.error = some "timed out enqueuing operation" ∧
      raftTimeout = 10 ∧
      Store.SetRev1 RaftState.Leader (FutureResult.failed "boom") "k" "v" =
        WriteCall.mk none [(marshalCommand (command.mk "set" "k" "v"), raftTimeout)] :=
  leader_write_blocks RaftState.Leader (FutureResult.failed "boom") "k" "v" rfl

/-- C10: reading the persisted peer list tolerates a missing file and a
zero-length file, yielding the empty peer list with a nil error, so a fresh
node is eligible for single-node bootstrap; any other read failure or
malformed content is an error, which Open propagates as its own failure. -/
theorem peers_read_tolerance :
    readPeersJSON ReadResult.notExist = Except.ok [] ∧
      readPeersJSON (ReadResult.ok Bytes.empty) = Except.ok [] ∧
      readPeersJSON ReadResult.otherError = Except.error "read error" ∧
      readPeersJSON (ReadResult.ok Bytes.malformed) = Except.error "invalid character" ∧
      (∀ (es : Bool) (r : ReadResult) (e : String), readPeersJSON r = Except.error e →
        Store.OpenConfig es r = Except.error e) ∧
      (∀ es : Bool, Store.OpenConfig es ReadResult.notExist =
        Except.ok (if es then RaftConfig.mk true false else raftDefaultConfig)) := by
  refine ⟨rfl, rfl, rfl, rfl, ?_, ?_⟩
  · intro es r e h
    simp [Store.OpenConfig, h]
  · intro es
    cases es <;> rfl

/-- Witness for C10: Open fails on malformed peers content yet a fresh node
with no peers file reaches single-node eligibility. -/
theorem peers_read_tolerance_witness :
    Store.OpenConfig true (ReadResult.ok Bytes.malformed) = Except.error "invalid character" ∧
      Store.OpenConfig true ReadResult.notExist = Except.ok (RaftConfig.mk true false) :=
  ⟨peers_read_tolerance.2.2.2.2.1 true (ReadResult.ok Bytes.malformed) "invalid character" rfl,
    peers_read_tolerance.2.2.2.2.2 true⟩
